import Mathlib

/-!
Verification of the celldetection demo notebook (`src/demos/demo-binary.ipynb`)
against its specification.

The notebook wires a `cd.data.CPNTargetGenerator`, a CPN model with NMS and
iterative refinement, and a training loop.  The numeric kernels of the library
(contour extraction, Fourier encoding, sampling, label reduction, the learned
refinement scores) are not part of the sources here; following the spec they
are modelled as explicit deterministic functions, gathered in `Kernels`, and
the orchestration around them is embedded faithfully.
-/

/-- A Label Map: a 2D grid of non-negative integers in row-major order.
`0` is background; each positive value identifies one instance (spec §3). -/
abbrev LabelMap := List (List ℕ)

/-- Collect the distinct positive instance ids of a pixel stream in the order
they are first encountered, accumulating into `acc` (spec §4.1: ids appear in
the order the Contour Extractor meets them during its scan). -/
def collectIds (acc : List ℕ) : List ℕ → List ℕ
  | [] => acc
  | v :: vs => if v = 0 ∨ v ∈ acc then collectIds acc vs else collectIds (acc ++ [v]) vs

/-- Instance ids of a label map in first-encounter (row-major scan) order. -/
def encounteredIds (m : LabelMap) : List ℕ := collectIds [] m.flatten

/-- Pixel area of instance `i` in label map `m`. -/
def instanceArea (m : LabelMap) (i : ℕ) : ℕ :=
  (m.flatten.filter (fun v => v = i)).length

/-- Modelled from the spec (§4.1, §7): degenerate instances — fewer than 3
pixels, hence a contour with fewer than 3 points — are dropped; the surviving
ids keep first-encounter order. -/
def survivingIds (m : LabelMap) : List ℕ :=
  (encounteredIds m).filter (fun i => decide (3 ≤ instanceArea m i))

/-- Pixel coordinates `(row, column)` of instance `i` in scan order. -/
def pixelsOf (m : LabelMap) (i : ℕ) : List (ℕ × ℕ) :=
  (m.enum.map (fun r => r.2.enum.filterMap
    (fun c => if c.2 = i then some (r.1, c.1) else none))).flatten

/-- Bounding-box center of a pixel set (the spec's example realisation of a
Location, §3: a single 2D point such as the bounding-box center). -/
def bboxCenter (ps : List (ℕ × ℕ)) : ℚ × ℚ :=
  match ps with
  | [] => (0, 0)
  | p :: rest =>
    let rmin := rest.foldl (fun a q => min a q.1) p.1
    let rmax := rest.foldl (fun a q => max a q.1) p.1
    let cmin := rest.foldl (fun a q => min a q.2) p.2
    let cmax := rest.foldl (fun a q => max a q.2) p.2
    (((rmin : ℚ) + (rmax : ℚ)) / 2, ((cmin : ℚ) + (cmax : ℚ)) / 2)

/-- The Location associated with instance `i` of label map `m`. -/
def locationOf (m : LabelMap) (i : ℕ) : ℚ × ℚ := bboxCenter (pixelsOf m i)

/-- Modelled from the spec: the numeric kernels of the core live in the
celldetection library, outside the sources here.  `contour` is the Contour
Extractor's ordered boundary for one instance (§4.1), `encode` the Fourier
encoder at a given order (§4.2), `sample` the Sampler drawing a fixed point
count (§4.3), `resample` the secondary sampling set of §4.4, and `reduce` the
label reduction with its foreground/background distance margins (§4.1).  Each
is an arbitrary deterministic function of the label map, instance contour and
configuration. -/
structure Kernels where
  contour : LabelMap → ℕ → List (ℚ × ℚ)
  encode : List (ℚ × ℚ) → ℤ → List (ℚ × ℚ)
  sample : List (ℚ × ℚ) → ℤ → List (ℚ × ℚ)
  resample : List (ℚ × ℚ) → ℤ → List (ℚ × ℚ)
  reduce : ℚ → ℚ → LabelMap → List (List ℕ)

/-- The `cd.data.CPNTargetGenerator` object as constructed in `Dataset.__init__`
(notebook cell 5): immutable configuration `samples`, `order`, `min_fg_dist`,
`max_bg_dist`, plus the state written by `feed` and read back through the
`reduced_labels`, `fourier`, `locations`, `sampled_contours`, `sampling`
accessors in `Dataset.__getitem__`. -/
structure CPNTargetGenerator where
  samples : ℤ
  order : ℤ
  min_fg_dist : ℚ
  max_bg_dist : ℚ
  labels : LabelMap
  locations : List (ℚ × ℚ)
  fourier : List (List (ℚ × ℚ))
  sampled_contours : List (List (ℚ × ℚ))
  sampling : List (List (ℚ × ℚ))
  reduced_labels : List (List ℕ)

/-- Modelled from the spec (§4.4): `gen.feed(labels=labels)` consumes one Label
Map and recomputes the whole supervision bundle from it and the immutable
configuration alone; every output sequence is indexed by the surviving
instance ids in first-encounter order. -/
def feed (Kr : Kernels) (g : CPNTargetGenerator) (L : LabelMap) : CPNTargetGenerator :=
  CPNTargetGenerator.mk g.samples g.order g.min_fg_dist g.max_bg_dist L
    ((survivingIds L).map (locationOf L))
    ((survivingIds L).map (fun i => Kr.encode (Kr.contour L i) g.order))
    ((survivingIds L).map (fun i => Kr.sample (Kr.contour L i) g.samples))
    ((survivingIds L).map (fun i => Kr.resample (Kr.contour L i) g.samples))
    (Kr.reduce g.min_fg_dist g.max_bg_dist L)

/-- The output bundle read from the generator by `Dataset.__getitem__`. -/
def outputBundle (g : CPNTargetGenerator) :
    List (ℚ × ℚ) × List (List (ℚ × ℚ)) × List (List (ℚ × ℚ)) ×
      List (List (ℚ × ℚ)) × List (List ℕ) :=
  (g.locations, g.fourier, g.sampled_contours, g.sampling, g.reduced_labels)

/-- Accumulator lemma: a pixel stream consisting only of background adds no
instance ids. -/
theorem collectIds_of_all_zero (vs : List ℕ) (h : ∀ v ∈ vs, v = 0) (acc : List ℕ) :
    collectIds acc vs = acc := by
  induction vs generalizing acc with
  | nil => rfl
  | cons v vs ih =>
    have hv : v = 0 := h v (List.mem_cons_self v vs)
    rw [collectIds, if_pos (Or.inl hv)]
    exact ih (fun w hw => h w (List.mem_cons_of_mem v hw)) acc

/-- An all-background label map has no surviving instance ids. -/
theorem survivingIds_of_all_zero (L : LabelMap) (h : ∀ row ∈ L, ∀ v ∈ row, v = 0) :
    survivingIds L = [] := by
  have hz : ∀ v ∈ L.flatten, v = 0 := by
    intro v hv
    rcases List.mem_flatten.mp hv with ⟨row, hrow, hvrow⟩
    exact h row hrow v hvrow
  unfold survivingIds encounteredIds
  rw [collectIds_of_all_zero L.flatten hz []]
  rfl

/-- C1: feeding the Target Generator twice with the same Label Map under the
same configuration yields identical output bundles — the bundle is a pure
function of the input and the immutable configuration, with no hidden state
carried between calls. -/
theorem targetGenerator_feed_deterministic (Kr : Kernels) (g : CPNTargetGenerator)
    (L : LabelMap) :
    outputBundle (feed Kr (feed Kr g L) L) = outputBundle (feed Kr g L) := rfl

/-- C2: for a Label Map with K non-degenerate instances, the `locations`,
`fourier` and `sampled_contours` outputs all have length exactly K, and the
i-th entry of each describes the i-th surviving instance id in the order the
ids are first encountered by the Contour Extractor. -/
theorem targetGenerator_cardinality (Kr : Kernels) (g : CPNTargetGenerator) (L : LabelMap) :
    (feed Kr g L).locations.length = (survivingIds L).length ∧
    (feed Kr g L).fourier.length = (survivingIds L).length ∧
    (feed Kr g L).sampled_contours.length = (survivingIds L).length ∧
    ∀ i : ℕ,
      (feed Kr g L).locations[i]? = ((survivingIds L)[i]?).map (locationOf L) ∧
      (feed Kr g L).fourier[i]? =
        ((survivingIds L)[i]?).map (fun j => Kr.encode (Kr.contour L j) g.order) ∧
      (feed Kr g L).sampled_contours[i]? =
        ((survivingIds L)[i]?).map (fun j => Kr.sample (Kr.contour L j) g.samples) := by
  refine ⟨List.length_map _ _, List.length_map _ _, List.length_map _ _, fun i => ?_⟩
  refine ⟨?_, ?_, ?_⟩ <;> simp [feed, List.getElem?_map]

/-- C3: a Label Map with zero instances does not make the Target Generator
fail; it produces empty `locations`, `fourier` and `sampled_contours`. -/
theorem targetGenerator_empty_labels (Kr : Kernels) (g : CPNTargetGenerator)
    (L : LabelMap) (h : ∀ row ∈ L, ∀ v ∈ row, v = 0) :
    (feed Kr g L).locations = [] ∧ (feed Kr g L).fourier = [] ∧
      (feed Kr g L).sampled_contours = [] := by
  have hs := survivingIds_of_all_zero L h
  refine ⟨?_, ?_, ?_⟩ <;> simp [feed, hs]

/-- The configuration values set in the notebook's `cd.Config(...)` cell:
`score_thresh=.9`, `nms_thresh=.5`, `order=7`, `samples=128`,
`refinement_iterations=3`, `refinement_buckets=6`, `bg_fg_dists=(0.8, 0.85)`,
`epochs=100`, `steps_per_epoch=8*512`, `batch_size=8`. -/
structure NotebookConf where
  score_thresh : ℚ
  nms_thresh : ℚ
  order : ℤ
  samples : ℤ
  refinement_iterations : ℕ
  refinement_buckets : ℕ
  max_bg_dist : ℚ
  min_fg_dist : ℚ
  epochs : ℕ
  steps_per_epoch : ℕ
  batch_size : ℕ

/-- The literal `conf` object of notebook cell 3. -/
def conf : NotebookConf :=
  NotebookConf.mk (9/10) (1/2) 7 128 3 6 (4/5) (17/20) 100 (8 * 512) 8

/-- The generator built by `Dataset.__init__` from `conf` (notebook cell 6:
`Dataset(conf.samples, conf.order, *conf.bg_fg_dists, ...)`), with empty
initial state. -/
def initialGenerator : CPNTargetGenerator :=
  CPNTargetGenerator.mk conf.samples conf.order conf.min_fg_dist conf.max_bg_dist
    [] [] [] [] [] []

/-- Trivial instantiation of the spec-modelled numeric kernels, used to
evaluate the orchestration on concrete inputs. -/
def trivialKernels : Kernels :=
  Kernels.mk (fun _ _ => []) (fun _ _ => []) (fun _ _ => []) (fun _ _ => [])
    (fun _ _ _ => [])

/-- The 64×64 all-zero Label Map of the spec's empty-input scenario. -/
def zeroMap64 : LabelMap := List.replicate 64 (List.replicate 64 0)

/-- Witness for C3: the 64×64 all-zero Label Map satisfies the zero-instance
hypothesis and yields `locations = []`, `fourier = []`,
`sampled_contours = []`. -/
theorem targetGenerator_empty_labels_witness :
    (∀ row ∈ zeroMap64, ∀ v ∈ row, v = 0) ∧
      (feed trivialKernels initialGenerator zeroMap64).locations = [] ∧
      (feed trivialKernels initialGenerator zeroMap64).fourier = [] ∧
      (feed trivialKernels initialGenerator zeroMap64).sampled_contours = [] := by
  have hz : ∀ row ∈ zeroMap64, ∀ v ∈ row, v = 0 := by
    intro row hrow v hv
    rw [List.eq_of_mem_replicate hrow] at hv
    exact List.eq_of_mem_replicate hv
  exact ⟨hz, targetGenerator_empty_labels trivialKernels initialGenerator zeroMap64 hz⟩

/-- Modelled from the spec (§4.7): Iterative Refinement runs a fixed number of
passes over the sampled contour points; one pass recomputes the Refinement
Buckets from the current Sampled Contour and moves every point to its
best-supported bucket position per an externally supplied score — the whole
pass is the function `step`.  The loop is a plain countdown with no
convergence test. -/
def refine (step : List (ℚ × ℚ) → List (ℚ × ℚ)) : ℕ → List (ℚ × ℚ) → List (ℚ × ℚ)
  | 0, c => c
  | n + 1, c => refine step n (step c)

/-- The list of intermediate Sampled Contours produced by `refine`, one entry
per executed pass. -/
def refineTrace (step : List (ℚ × ℚ) → List (ℚ × ℚ)) :
    ℕ → List (ℚ × ℚ) → List (List (ℚ × ℚ))
  | 0, _ => []
  | n + 1, c => step c :: refineTrace step n (step c)

/-- C4: Iterative Refinement performs exactly `refinement_iterations` passes —
with the notebook's configured value 3, exactly three passes — for every input
contour and every pass function, with no early exit: even a contour the pass
function leaves unchanged (already on the true boundary) is processed exactly
three times. -/
theorem refinement_fixed_pass_count (step : List (ℚ × ℚ) → List (ℚ × ℚ)) :
    (∀ (n : ℕ) (c : List (ℚ × ℚ)), (refineTrace step n c).length = n) ∧
    (∀ c : List (ℚ × ℚ),
      refine step conf.refinement_iterations c = step (step (step c))) ∧
    (∀ c : List (ℚ × ℚ), step c = c →
      refineTrace step conf.refinement_iterations c = [c, c, c]) := by
  have hlen : ∀ (n : ℕ) (c : List (ℚ × ℚ)), (refineTrace step n c).length = n := by
    intro n
    induction n with
    | zero => intro c; rfl
    | succ n ih => intro c; simp [refineTrace, ih]
  refine ⟨hlen, fun c => rfl, fun c hc => ?_⟩
  show refineTrace step 3 c = [c, c, c]
  simp [refineTrace, hc]

/-- Witness for C4: with the identity pass function and an already-converged
contour, the three configured passes still all run. -/
theorem refinement_fixed_pass_count_witness :
    (fun c : List (ℚ × ℚ) => c) [] = ([] : List (ℚ × ℚ)) ∧
      refineTrace (fun c => c) conf.refinement_iterations [] = [[], [], []] :=
  ⟨rfl, (refinement_fixed_pass_count (fun c => c)).2.2 [] rfl⟩

/-- The error kinds of spec §7 that the Target Generator can signal. -/
inductive TargetError where
  | invalidConfiguration : TargetError
  | shapeMismatch : TargetError
deriving DecidableEq

/-- A Label Map has valid spatial dimensions: nonempty, rectangular, with
nonempty rows. -/
def valid2D (L : LabelMap) : Bool :=
  !L.isEmpty && L.all (fun row => !row.isEmpty && row.length == (L.headD []).length)

/-- Modelled from the spec (§4.4 Failure, §7): the Target Generator signals
`InvalidConfiguration` when `order` or `samples` is non-positive and an error
when the Label Map lacks matching spatial dimensions; violations abort the
operation (no output bundle is produced) rather than being clamped. -/
def checkedFeed (Kr : Kernels) (g : CPNTargetGenerator) (L : LabelMap) :
    Except TargetError CPNTargetGenerator :=
  if g.order ≤ 0 ∨ g.samples ≤ 0 then Except.error TargetError.invalidConfiguration
  else if valid2D L then Except.ok (feed Kr g L)
  else Except.error TargetError.shapeMismatch

/-- C7: non-positive `order` or `samples` makes the Target Generator signal
`InvalidConfiguration`; a Label Map without valid spatial dimensions also
signals an error; and any successful run certifies that the configuration was
positive, the map well-shaped, and the output the unclamped bundle. -/
theorem checkedFeed_validation (Kr : Kernels) (g : CPNTargetGenerator) (L : LabelMap) :
    ((g.order ≤ 0 ∨ g.samples ≤ 0) →
      checkedFeed Kr g L = Except.error TargetError.invalidConfiguration) ∧
    (valid2D L = false → ∃ e, checkedFeed Kr g L = Except.error e) ∧
    (∀ out, checkedFeed Kr g L = Except.ok out →
      0 < g.order ∧ 0 < g.samples ∧ valid2D L = true ∧ out = feed Kr g L) := by
  refine ⟨fun h => ?_, fun h => ?_, fun out h => ?_⟩
  · simp [checkedFeed, h]
  · unfold checkedFeed
    split
    · exact ⟨TargetError.invalidConfiguration, rfl⟩
    · rw [h]
      exact ⟨TargetError.shapeMismatch, rfl⟩
  · unfold checkedFeed at h
    split at h
    · exact absurd h (by simp)
    · rename_i hcfg
      push_neg at hcfg
      split at h
      · rename_i hv
        have hout : feed Kr g L = out := by simpa using h
        exact ⟨hcfg.1, hcfg.2, hv, hout.symm⟩
      · exact absurd h (by simp)

/-- Witness for C7: the notebook generator with `order` overridden to `0` is
rejected with `InvalidConfiguration`. -/
theorem checkedFeed_validation_witness :
    (((0 : ℤ) ≤ 0 ∨ (128 : ℤ) ≤ 0)) ∧
      checkedFeed trivialKernels
        (CPNTargetGenerator.mk 128 0 conf.min_fg_dist conf.max_bg_dist [] [] [] [] [] [])
        zeroMap64 = Except.error TargetError.invalidConfiguration :=
  ⟨Or.inl le_rfl,
    (checkedFeed_validation trivialKernels
      (CPNTargetGenerator.mk 128 0 conf.min_fg_dist conf.max_bg_dist [] [] [] [] [] [])
      zeroMap64).1 (Or.inl le_rfl)⟩

/-- Modelled from the spec (§4.6): proposals are ranked by score descending;
`scoreGE a b` says `a` ranks at least as high as `b`. -/
def scoreGE {α : Type} (score : α → ℚ) (a b : α) : Prop := score b ≤ score a

instance scoreGE.decidableRel {α : Type} (score : α → ℚ) : DecidableRel (scoreGE score) :=
  fun a b => inferInstanceAs (Decidable (score b ≤ score a))

/-- A lower-ranked proposal `q` is kept against an accepted proposal `p` iff
its contour-overlap measure with `p` does not exceed the threshold. -/
def nmsKeep {α : Type} (overlap : α → α → ℚ) (thresh : ℚ) (p q : α) : Bool :=
  decide (overlap p q ≤ thresh)

/-- Greedy suppression pass of spec §4.6 on an already score-sorted list:
accept the highest-scoring remaining proposal, remove every remaining proposal
whose overlap with it exceeds the threshold, repeat.  The structural `fuel`
argument (instantiated with the list length, which bounds the number of
acceptances) makes the recursion on the shrinking remainder explicit. -/
def nmsGo {α : Type} (overlap : α → α → ℚ) (thresh : ℚ) : ℕ → List α → List α
  | _, [] => []
  | 0, _ :: _ => []
  | f + 1, p :: rest => p :: nmsGo overlap thresh f (rest.filter (nmsKeep overlap thresh p))

/-- Non-Maximum Suppression (spec §4.6): sort the proposals by score
descending — insertion sort is stable, so equal scores tie-break by original
detection index — then greedily suppress. -/
def nms {α : Type} (score : α → ℚ) (overlap : α → α → ℚ) (thresh : ℚ) (l : List α) :
    List α :=
  nmsGo overlap thresh l.length (List.insertionSort (scoreGE score) l)

/-- The greedy pass returns a sublist of its input, for any fuel. -/
theorem nmsGo_sublist {α : Type} (overlap : α → α → ℚ) (thresh : ℚ) :
    ∀ (f : ℕ) (l : List α), List.Sublist (nmsGo overlap thresh f l) l := by
  intro f
  induction f with
  | zero => intro l; cases l <;> simp [nmsGo]
  | succ f ih =>
    intro l
    cases l with
    | nil => simp [nmsGo]
    | cons p rest =>
      exact List.Sublist.cons₂ p ((ih _).trans (List.filter_sublist rest))

/-- Any two proposals in the greedy pass's output, in output order, overlap by
at most the threshold: the later one survived the earlier one's removal
step. -/
theorem nmsGo_pairwise {α : Type} (overlap : α → α → ℚ) (thresh : ℚ) :
    ∀ (f : ℕ) (l : List α),
      (nmsGo overlap thresh f l).Pairwise (fun p q => overlap p q ≤ thresh) := by
  intro f
  induction f with
  | zero => intro l; cases l <;> simp [nmsGo]
  | succ f ih =>
    intro l
    cases l with
    | nil => simp [nmsGo]
    | cons p rest =>
      rw [nmsGo, List.pairwise_cons]
      refine ⟨fun q hq => ?_, ih _⟩
      have hmem : q ∈ rest.filter (nmsKeep overlap thresh p) :=
        (nmsGo_sublist overlap thresh f _).subset hq
      have := List.of_mem_filter hmem
      simpa [nmsKeep] using this

/-- On a list in which no proposal's overlap with an earlier one exceeds the
threshold, the greedy pass removes nothing (given enough fuel). -/
theorem nmsGo_eq_self {α : Type} (overlap : α → α → ℚ) (thresh : ℚ) :
    ∀ (f : ℕ) (l : List α), l.Pairwise (fun p q => overlap p q ≤ thresh) →
      l.length ≤ f → nmsGo overlap thresh f l = l := by
  intro f
  induction f with
  | zero =>
    intro l hpw hlen
    cases l with
    | nil => rfl
    | cons p rest => simp at hlen
  | succ f ih =>
    intro l hpw hlen
    cases l with
    | nil => rfl
    | cons p rest =>
      rw [List.pairwise_cons] at hpw
      have hf : rest.filter (nmsKeep overlap thresh p) = rest :=
        List.filter_eq_self.mpr (fun q hq => by simp [nmsKeep, hpw.1 q hq])
      rw [nmsGo, hf, ih rest hpw.2 (by simpa using Nat.le_of_succ_le_succ hlen)]

/-- C5: Non-Maximum Suppression is idempotent — applying NMS to its own output
with the same score, overlap measure and threshold returns that output
unchanged. -/
theorem nms_idempotent {α : Type} (score : α → ℚ) (overlap : α → α → ℚ) (thresh : ℚ)
    (l : List α) :
    nms score overlap thresh (nms score overlap thresh l) = nms score overlap thresh l := by
  haveI : IsTotal α (scoreGE score) := ⟨fun a b => le_total (score b) (score a)⟩
  haveI : IsTrans α (scoreGE score) := ⟨fun a b c h1 h2 => le_trans h2 h1⟩
  have hsorted : (List.insertionSort (scoreGE score) l).Sorted (scoreGE score) :=
    List.sorted_insertionSort (scoreGE score) l
  have hsorted2 : (nms score overlap thresh l).Sorted (scoreGE score) :=
    List.Pairwise.sublist (nmsGo_sublist overlap thresh _ _) hsorted
  show nmsGo overlap thresh _ (List.insertionSort (scoreGE score) (nms score overlap thresh l))
      = nms score overlap thresh l
  rw [hsorted2.insertionSort_eq]
  exact nmsGo_eq_self overlap thresh _ _
    (nmsGo_pairwise overlap thresh _ _) le_rfl

/-- A concrete Proposal whose closed contour is an axis-aligned rectangle
`[x1, x2] × [y1, y2]`, carrying its detection score. -/
structure RectProposal where
  score : ℚ
  x1 : ℚ
  y1 : ℚ
  x2 : ℚ
  y2 : ℚ
deriving DecidableEq

/-- Minimum of two rationals, written as a conditional. -/
def qmin (a b : ℚ) : ℚ := if a ≤ b then a else b

/-- Maximum of two rationals, written as a conditional. -/
def qmax (a b : ℚ) : ℚ := if a ≤ b then b else a

/-- Area-overlap ratio (IoU) of two rectangular contours — an instance of the
spec's closed-curve area-overlap measure (§4.6). -/
def rectIoU (a b : RectProposal) : ℚ :=
  let iw := qmax 0 (qmin a.x2 b.x2 - qmax a.x1 b.x1)
  let ih := qmax 0 (qmin a.y2 b.y2 - qmax a.y1 b.y1)
  let inter := iw * ih
  let areaA := (a.x2 - a.x1) * (a.y2 - a.y1)
  let areaB := (b.x2 - b.x1) * (b.y2 - b.y1)
  let uni := areaA + areaB - inter
  if uni = 0 then 0 else inter / uni

/-- Score 0.9: a thin vertical rectangle crossing the gap of the two half
strips, overlapping the full strip slightly (IoU 1/13). -/
def propA : RectProposal := RectProposal.mk (9/10) (9/2) (-3) (11/2) 1

/-- Score 0.8: the full strip `[0,10] × [0,1]`. -/
def propB : RectProposal := RectProposal.mk (8/10) 0 0 10 1

/-- Score 0.7: the left part `[0, 4.5] × [0,1]` of the strip (IoU 9/20 with
it). -/
def propC : RectProposal := RectProposal.mk (7/10) 0 0 (9/2) 1

/-- Score 0.6: the right part `[5.5, 10] × [0,1]` of the strip (IoU 9/20 with
it, disjoint from the left part). -/
def propD : RectProposal := RectProposal.mk (6/10) (11/2) 0 10 1

/-- The proposal set on which NMS survivor count decreases as the threshold
grows. -/
def nmsCounterexampleProposals : List RectProposal := [propA, propB, propC, propD]

/-- Counterexample to C6 as stated: for this four-proposal set, raising
`nms_thresh` from 1/20 to 2/5 lets the full strip survive against the thin
rectangle, and the full strip then suppresses both half strips — the survivor
count drops from 3 to 2 although the threshold increased. -/
theorem nms_monotonicity_counterexample :
    ((1 : ℚ)/20 ≤ 2/5) ∧
      (nms RectProposal.score rectIoU (1/20) nmsCounterexampleProposals).length = 3 ∧
      (nms RectProposal.score rectIoU (2/5) nmsCounterexampleProposals).length = 2 := by
  refine ⟨by norm_num, ?_, ?_⟩ <;>
    norm_num [nms, nmsGo, nmsCounterexampleProposals, List.insertionSort,
      List.orderedInsert, scoreGE, nmsKeep, rectIoU, qmin, qmax,
      propA, propB, propC, propD]

/-- On any list of at most three proposals, the greedy pass keeps at least as
many proposals at a larger threshold: the one non-monotone transition — the
third proposal kept at the smaller threshold through the second one's removal
but suppressed by it at the larger — is exactly compensated by the second
proposal's own survival. -/
theorem nmsGo_length_mono_of_le_three {α : Type} (ov : α → α → ℚ) (t1 t2 : ℚ)
    (ht : t1 ≤ t2) (m : List α) (hlen : m.length ≤ 3) :
    (nmsGo ov t1 m.length m).length ≤ (nmsGo ov t2 m.length m).length := by
  rcases m with _ | ⟨a, _ | ⟨b, _ | ⟨c, _ | ⟨d, rest⟩⟩⟩⟩
  · exact le_rfl
  · simp [nmsGo]
  · by_cases hab1 : ov a b ≤ t1
    · have hab2 : ov a b ≤ t2 := hab1.trans ht
      simp [nmsGo, nmsKeep, hab1, hab2]
    · by_cases hab2 : ov a b ≤ t2 <;> simp [nmsGo, nmsKeep, hab1, hab2]
  · by_cases hab1 : ov a b ≤ t1
    · have hab2 : ov a b ≤ t2 := hab1.trans ht
      by_cases hac1 : ov a c ≤ t1
      · have hac2 : ov a c ≤ t2 := hac1.trans ht
        by_cases hbc1 : ov b c ≤ t1
        · have hbc2 : ov b c ≤ t2 := hbc1.trans ht
          simp [nmsGo, nmsKeep, hab1, hab2, hac1, hac2, hbc1, hbc2]
        · by_cases hbc2 : ov b c ≤ t2 <;>
            simp [nmsGo, nmsKeep, hab1, hab2, hac1, hac2, hbc1, hbc2]
      · by_cases hac2 : ov a c ≤ t2
        · by_cases hbc2 : ov b c ≤ t2 <;>
            simp [nmsGo, nmsKeep, hab1, hab2, hac1, hac2, hbc2]
        · simp [nmsGo, nmsKeep, hab1, hab2, hac1, hac2]
    · by_cases hac1 : ov a c ≤ t1
      · have hac2 : ov a c ≤ t2 := hac1.trans ht
        by_cases hab2 : ov a b ≤ t2
        · by_cases hbc2 : ov b c ≤ t2 <;>
            simp [nmsGo, nmsKeep, hab1, hab2, hac1, hac2, hbc2]
        · simp [nmsGo, nmsKeep, hab1, hab2, hac1, hac2]
      · by_cases hab2 : ov a b ≤ t2 <;> by_cases hac2 : ov a c ≤ t2 <;>
          by_cases hbc2 : ov b c ≤ t2 <;>
          simp [nmsGo, nmsKeep, hab1, hab2, hac1, hac2, hbc2]
  · simp at hlen

/-- C6 amended: the survivor count is monotone in `nms_thresh` for every
proposal set of at most three proposals (covering the spec's two-proposal
scenario); with four or more proposals it can decrease, as the four-proposal
counterexample shows.  Sorting does not depend on the threshold, so this
reduces to threshold-monotonicity of the greedy pass on the sorted list. -/
theorem nms_monotone_of_at_most_three {α : Type} (score : α → ℚ) (overlap : α → α → ℚ)
    (t1 t2 : ℚ) (l : List α) (hlen : l.length ≤ 3) (ht : t1 ≤ t2) :
    (nms score overlap t1 l).length ≤ (nms score overlap t2 l).length := by
  have hslen : (List.insertionSort (scoreGE score) l).length = l.length :=
    List.length_insertionSort (scoreGE score) l
  unfold nms
  rw [show l.length = (List.insertionSort (scoreGE score) l).length from hslen.symm]
  exact nmsGo_length_mono_of_le_three overlap t1 t2 ht _ (hslen.trans_le hlen)

/-- The higher-scoring rectangle of the spec's two-proposal scenario. -/
def scenarioHigh : RectProposal := RectProposal.mk (9/10) 0 0 10 1

/-- The lower-scoring rectangle of the spec's two-proposal scenario; its IoU
with `scenarioHigh` is 9/10. -/
def scenarioLow : RectProposal := RectProposal.mk (8/10) 0 0 9 1

/-- Witness for the amended C6: on the spec's two-proposal scenario set, the
survivor count at threshold 1/2 is at most the survivor count at
threshold 19/20. -/
theorem nms_monotone_of_at_most_three_witness :
    ([scenarioHigh, scenarioLow].length ≤ 3) ∧ ((1 : ℚ)/2 ≤ 19/20) ∧
      (nms RectProposal.score rectIoU (1/2) [scenarioHigh, scenarioLow]).length ≤
        (nms RectProposal.score rectIoU (19/20) [scenarioHigh, scenarioLow]).length :=
  ⟨by decide, by norm_num,
    nms_monotone_of_at_most_three RectProposal.score rectIoU (1/2) (19/20)
      [scenarioHigh, scenarioLow] (by decide) (by norm_num)⟩

/-- Embedding of the notebook's `train_epoch` (cell 10).  In Python the loop
`for batch_idx, batch in enumerate(tqdm(train_loader, desc=...))` resolves
`train_loader` as the module-level global defined in cell 6 — the function's
parameter is spelled `train_loder` and is never read — so the global loader is
an explicit first argument here.  The per-batch zero-grad/forward/backward/
optimizer work is `step`; the optional `scheduler.step()` after the loop is
`schedulerStep`. -/
def train_epoch {M B : Type} (train_loader : List B) (step : M → B → M)
    (schedulerStep : Option (M → M)) (model : M) (train_loder : List B) : M :=
  let trained := train_loader.foldl step model
  match schedulerStep with
  | none => trained
  | some f => f trained

/-- C8: `train_epoch` never reads its `train_loder` parameter — its result is
the same for every value passed there, and the batches folded over are exactly
those of the module-level global `train_loader`. -/
theorem train_epoch_ignores_loader_argument {M B : Type} (train_loader : List B)
    (step : M → B → M) (schedulerStep : Option (M → M)) (model : M)
    (l1 l2 : List B) :
    train_epoch train_loader step schedulerStep model l1
        = train_epoch train_loader step schedulerStep model l2 ∧
      train_epoch train_loader step none model l1 = train_loader.foldl step model :=
  ⟨rfl, rfl⟩

/-- Python's `range(a, b)`. -/
def pyRange (a b : ℕ) : List ℕ := List.range' a (b - a)

/-- The epoch indices iterated by the notebook's training driver (cell 12):
`for epoch in range(1, conf.epochs)`. -/
def trainingEpochIndices : List ℕ := pyRange 1 conf.epochs

/-- The number of `train_epoch` invocations made by the driver: one per
iterated epoch index. -/
def trainEpochCallCount : ℕ := trainingEpochIndices.length

/-- C9: the driver iterates `range(1, conf.epochs)`, so `train_epoch` runs
exactly `conf.epochs - 1` times — 99 times under the configured
`epochs=100` — not `conf.epochs` times. -/
theorem training_loop_epoch_count :
    trainEpochCallCount = conf.epochs - 1 ∧ conf.epochs = 100 ∧
      trainEpochCallCount = 99 := by
  refine ⟨?_, rfl, ?_⟩ <;>
    simp [trainEpochCallCount, trainingEpochIndices, pyRange, conf]

/-- An exact fraction `num / den` with positive denominator, used to model the
IEEE-754 binary64 values flowing through `Dataset.map` / `Dataset.unmap`
without `Rat` normalisation. -/
structure Frac where
  num : ℤ
  den : ℤ

/-- Exact product of two fractions. -/
def fracMul (a b : Frac) : Frac := Frac.mk (a.num * b.num) (a.den * b.den)

/-- Exact sum of two fractions. -/
def fracAdd (a b : Frac) : Frac := Frac.mk (a.num * b.den + b.num * a.den) (a.den * b.den)

/-- Exact difference of two fractions. -/
def fracSub (a b : Frac) : Frac := Frac.mk (a.num * b.den - b.num * a.den) (a.den * b.den)

/-- Exact quotient of two fractions, keeping the denominator positive. -/
def fracDiv (a b : Frac) : Frac :=
  if 0 ≤ b.num then Frac.mk (a.num * b.den) (a.den * b.num)
  else Frac.mk (-(a.num * b.den)) (a.den * -b.num)

/-- Scale a positive fraction up by powers of two until it reaches `2^52`,
tracking the binary exponent; the structural fuel bounds the number of
doublings (59 suffice for the pixel computations modelled here). -/
def normUp : ℕ → Frac → ℤ → Frac × ℤ
  | 0, q, e => (q, e)
  | f + 1, q, e =>
    if q.num < 2 ^ 52 * q.den then normUp f (Frac.mk (q.num * 2) q.den) (e - 1)
    else (q, e)

/-- Scale a fraction down by powers of two until it is below `2^53`, tracking
the binary exponent. -/
def normDown : ℕ → Frac → ℤ → Frac × ℤ
  | 0, q, e => (q, e)
  | f + 1, q, e =>
    if 2 ^ 53 * q.den ≤ q.num then normDown f (Frac.mk q.num (q.den * 2)) (e + 1)
    else (q, e)

/-- Round a fraction lying in `[2^52, 2^53)` to the nearest integer mantissa,
ties to even (IEEE-754 round-to-nearest-even). -/
def roundMantissa (q : Frac) : ℤ :=
  let fl := q.num / q.den
  let r2 := 2 * (q.num - fl * q.den)
  if r2 < q.den then fl
  else if q.den < r2 then fl + 1
  else if fl % 2 = 0 then fl else fl + 1

/-- The fraction `n * 2 ^ e`. -/
def ofMantissa (n : ℤ) (e : ℤ) : Frac :=
  if 0 ≤ e then Frac.mk (n * 2 ^ e.toNat) 1 else Frac.mk n (2 ^ (-e).toNat)

/-- Round a positive fraction to the nearest IEEE-754 binary64 value
(normal range). -/
def roundPosDouble (q : Frac) : Frac :=
  let u := normUp 200 q 0
  let p := normDown 200 u.1 u.2
  ofMantissa (roundMantissa p.1) p.2

/-- Round an exact fraction to the nearest IEEE-754 binary64 value (normal
range; validated against float64 for the full pixel chain 0..255). -/
def roundDouble (q : Frac) : Frac :=
  if q.num = 0 then Frac.mk 0 1
  else if q.num < 0 then
    let r := roundPosDouble (Frac.mk (-q.num) q.den)
    Frac.mk (-r.num) r.den
  else roundPosDouble q

/-- float64 addition: exact sum, then rounding. -/
def fAdd (a b : Frac) : Frac := roundDouble (fracAdd a b)

/-- float64 subtraction. -/
def fSub (a b : Frac) : Frac := roundDouble (fracSub a b)

/-- float64 multiplication. -/
def fMul (a b : Frac) : Frac := roundDouble (fracMul a b)

/-- float64 division. -/
def fDiv (a b : Frac) : Frac := roundDouble (fracDiv a b)

/-- The literal `127.5` of `Dataset.map` / `Dataset.unmap`, an exactly
representable double. -/
def half255 : Frac := Frac.mk 255 2

/-- `Dataset.map` on one pixel under the code's float64 semantics:
`image / 127.5` then `image -= 1` (notebook cell 5). -/
def datasetMapPx (v : ℤ) : Frac := fSub (fDiv (Frac.mk v 1) half255) (Frac.mk 1 1)

/-- `Dataset.unmap` on one pixel under the code's float64 semantics:
`(image + 1) * 127.5`, `np.clip(image, 0, 255)`, `.astype('uint8')`
(truncation toward zero; the clipped value is non-negative, so floor). -/
def datasetUnmapPx (w : Frac) : ℤ :=
  let y := fMul (fAdd w (Frac.mk 1 1)) half255
  if y.num ≤ 0 then 0
  else if 255 * y.den ≤ y.num then 255
  else y.num / y.den

/-- `Dataset.unmap (Dataset.map image)` under float64 semantics, elementwise
on an integer image. -/
def datasetRoundTrip (img : List ℤ) : List ℤ :=
  (img.map datasetMapPx).map datasetUnmapPx

set_option maxRecDepth 8000

/-- Counterexample to C10 as stated: for the valid pixel value 1, float64
evaluation gives `1/127.5 * 127.5` slightly below 1 and the `uint8` cast
truncates it to 0 — the round trip is not the identity on `[1]`. -/
theorem dataset_roundTrip_float_counterexample :
    datasetRoundTrip [1] = [0] ∧ ([0] : List ℤ) ≠ [1] := by
  exact ⟨by decide, by decide⟩

/-- Sanity check of the float64 model: on pixel values whose rounding chain
lands back on the value itself, the round trip is the identity. -/
theorem datasetRoundTrip_id_on_good_values :
    datasetRoundTrip [0, 100, 255] = [0, 100, 255] := by decide

/-- `Dataset.map` on one pixel in exact (real) arithmetic. -/
def datasetMapExactPx (v : ℚ) : ℚ := v / (255/2) - 1

/-- `Dataset.unmap` on one pixel in exact (real) arithmetic: scale back, clip
to `[0, 255]`, truncate to an unsigned byte. -/
def datasetUnmapExactPx (w : ℚ) : ℕ :=
  (Int.toNat ⌊qmax 0 (qmin ((w + 1) * (255/2)) 255)⌋)

/-- `Dataset.unmap (Dataset.map image)` in exact arithmetic. -/
def datasetRoundTripExact (img : List ℕ) : List ℕ :=
  img.map (fun v => datasetUnmapExactPx (datasetMapExactPx (v : ℚ)))

/-- C10 amended: in exact arithmetic the `Dataset.unmap`/`Dataset.map` round
trip is the identity on every image with integer values in `[0, 255]`; under
the code's IEEE-754 float64 evaluation, rounding puts some values (e.g. 1)
just below an integer and truncation drops them by one. -/
theorem dataset_roundTrip_exact (img : List ℕ) (h : ∀ v ∈ img, v ≤ 255) :
    datasetRoundTripExact img = img := by
  induction img with
  | nil => rfl
  | cons v vs ih =>
    have hv : (v : ℚ) ≤ 255 := by
      exact_mod_cast h v (List.mem_cons_self v vs)
    have hstep : datasetUnmapExactPx (datasetMapExactPx (v : ℚ)) = v := by
      have hmul : ((v : ℚ) / (255/2) - 1 + 1) * (255/2) = (v : ℚ) := by
        have : ((255 : ℚ)/2) ≠ 0 := by norm_num
        field_simp
      unfold datasetUnmapExactPx datasetMapExactPx
      rw [hmul]
      have h0 : (0 : ℚ) ≤ (v : ℚ) := by positivity
      rw [qmin, if_pos hv, qmax, if_pos h0, Int.floor_natCast]
      exact Int.toNat_natCast v
    show datasetUnmapExactPx (datasetMapExactPx (v : ℚ)) :: datasetRoundTripExact vs
        = v :: vs
    rw [hstep, ih (fun w hw => h w (List.mem_cons_of_mem v hw))]

/-- Witness for the amended C10: the exact round trip is the identity on the
image `[0, 128, 255]`. -/
theorem dataset_roundTrip_exact_witness :
    (∀ v ∈ [0, 128, 255], v ≤ 255) ∧
      datasetRoundTripExact [0, 128, 255] = [0, 128, 255] :=
  ⟨by decide, dataset_roundTrip_exact [0, 128, 255] (by decide)⟩
